import Mathlib

/-!
Verification development for the cartridge game-save backup tool
(src/lib.rs).  The configuration model, the variable resolver, the
POSIX path anonymizer, the pattern-mode copier and the per-game /
bulk orchestrators are embedded as executable Lean definitions,
translated from the Rust source.  External collaborators (the glob
crate and the recursive byte-copy primitive) are parameters of the
embedding context, as the specification itself treats them as
external.
-/

deriving instance DecidableEq for Except

namespace Cartridge

/-- Error kinds of the tool, abstracting the anyhow error strings of
the source (one constructor per distinct error site). -/
inductive CErr where
  | undefinedVariable (name : List Char)
  | circularVariableReference
  | reservedVariableName (name : List Char)
  | gameNotFound (name : String)
  | noBackup (name : String)
  | sourceMissing (path : List Char)
  | backupDirMissing
  | invalidFileName
  | aggregateFailure
  | globError
deriving DecidableEq

/-- The resolved variable scope: models the HashMap<String, String>
of the source.  Insertion prepends; lookup takes the first match, so
a later insertion of the same key shadows (= overwrites) the earlier
one, exactly as HashMap::insert does observationally. -/
abbrev Scope := List (List Char × List Char)

/-- Models HashMap::insert (observationally: the new binding wins on
lookup). -/
def insertVar (name value : List Char) (s : Scope) : Scope :=
  (name, value) :: s

/-- Models HashMap::get. -/
def lookupVar : Scope → List Char → Option (List Char)
  | [], _ => none
  | (k, v) :: rest, name => if k = name then some v else lookupVar rest name

/-- Models str::contains of the two-character needle used by the
expansion loop condition, scanning for a dollar sign immediately
followed by an opening brace. -/
def hasDollarBrace : List Char → Bool
  | '$' :: '{' :: _ => true
  | _ :: rest => hasDollarBrace rest
  | [] => false

/-- Scanner mode of one expansion pass: either copying ordinary
characters, or accumulating a variable name after a dollar-brace
opener (the inner while loop of the source). -/
inductive ScanMode where
  | normal
  | inName (acc : List Char)

/-- One scanning pass of expand_variables (the body of the outer
while loop in the source): copies characters, and on each
dollar-brace opener reads the name up to the next closing brace (or
to the end of input), substituting the variable value or failing
with the undefined-variable error.  Returns the rewritten string and
the changed flag. -/
def scanPass (scope : Scope) : ScanMode → List Char → Except CErr (List Char × Bool)
  | .normal, [] => .ok ([], false)
  | .normal, '$' :: '{' :: rest => scanPass scope (.inName []) rest
  | .normal, c :: rest =>
    match scanPass scope .normal rest with
    | .ok (t, ch) => .ok (c :: t, ch)
    | .error e => .error e
  | .inName acc, [] =>
    match lookupVar scope acc with
    | some v => .ok (v, true)
    | none => .error (.undefinedVariable acc)
  | .inName acc, '}' :: rest =>
    match lookupVar scope acc with
    | some v =>
      match scanPass scope .normal rest with
      | .ok (t, _) => .ok (v ++ t, true)
      | .error e => .error e
    | none => .error (.undefinedVariable acc)
  | .inName acc, c :: rest => scanPass scope (.inName (acc ++ [c])) rest

/-- MAX_ITERATIONS of the source. -/
def MAX_ITERATIONS : Nat := 10

/-- The outer while loop of expand_variables.  The loop variable
iterations counts up exactly as in the source; fuel is initialised
to MAX_ITERATIONS so that fuel = MAX_ITERATIONS - iterations holds
throughout, hence the fuel-exhaustion exit coincides with the
iterations < MAX_ITERATIONS test turning false and introduces no
behaviour of its own.  Returns the final string together with the
final value of iterations. -/
def expandLoop (scope : Scope) : Nat → List Char → Nat → Except CErr (List Char × Nat)
  | 0, result, iterations => .ok (result, iterations)
  | fuel + 1, result, iterations =>
    if hasDollarBrace result && decide (iterations < MAX_ITERATIONS) then
      match scanPass scope .normal result with
      | .error e => .error e
      | .ok (newResult, changed) =>
        if changed then expandLoop scope fuel newResult (iterations + 1)
        else .ok (newResult, iterations + 1)
    else .ok (result, iterations)

/-- Models expand_variables: run the bounded substitution loop, then
fail with the circular-reference error when the loop used up the
iteration budget. -/
def expand_variables (scope : Scope) (value : List Char) : Except CErr (List Char) :=
  match expandLoop scope MAX_ITERATIONS value 0 with
  | .error e => .error e
  | .ok (result, iterations) =>
    if MAX_ITERATIONS ≤ iterations then .error .circularVariableReference
    else .ok result

/-- Result of iterating the scanning pass a given number of times,
ignoring the iteration bound; none when a pass fails.  Used to state
which strings reach a fully substituted form in k passes. -/
def iterPass (scope : Scope) : Nat → List Char → Option (List Char)
  | 0, s => some s
  | k + 1, s =>
    match scanPass scope .normal s with
    | .ok (r, _) => iterPass scope k r
    | .error _ => none

/-! ### Configuration model (struct Config, Variable, Game, SaveLocation) -/

/-- A user-defined variable of the configuration. -/
structure Variable where
  name : List Char
  value : List Char
deriving DecidableEq

/-- A save location of a game: a path string (possibly containing
variable references) and a list of glob patterns (empty means: copy
everything recursively). -/
structure SaveLocation where
  path : List Char
  files : List String
deriving DecidableEq

/-- A game entry of the configuration. -/
structure Game where
  name : String
  enabled : Bool
  saves : List SaveLocation
deriving DecidableEq

/-- Models add_system_variables (unix branch): insert home, then
config, each only when the platform reports a directory for it. -/
def add_system_variables (homeDir configDir : Option (List Char)) : Scope :=
  let s : Scope := []
  let s := match homeDir with
    | some h => insertVar "home".data h s
    | none => s
  match configDir with
  | some c => insertVar "config".data c s
  | none => s

/-- The per-variable resolution loop of resolve_variables: expand
each user variable's value against the scope accumulated so far,
then insert it. -/
def resolveUserVars (scope : Scope) : List Variable → Except CErr Scope
  | [] => .ok scope
  | v :: rest =>
    match expand_variables scope v.value with
    | .error e => .error e
    | .ok resolved => resolveUserVars (insertVar v.name resolved scope) rest

/-- Models resolve_variables: add the system variables, reject the
first user variable bearing a reserved name (home checked before
config on each variable, as in the source), then resolve the user
variables in document order. -/
def resolve_variables (homeDir configDir : Option (List Char))
    (vars : List Variable) : Except CErr Scope :=
  let scope := add_system_variables homeDir configDir
  match vars.find? (fun v => decide (v.name = "home".data) || decide (v.name = "config".data)) with
  | some v => .error (.reservedVariableName v.name)
  | none => resolveUserVars scope vars

/-! ### Path model (std::path on unix, at the component level) -/

/-- A parsed path component, as in std::path::Component on unix
(the unix-relevant constructors). -/
inductive Component where
  | rootDir
  | curDir
  | parentDir
  | normal (name : String)
deriving DecidableEq

/-- A path, as its parsed component sequence. -/
abbrev UPath := List Component

/-- Whether a component is a Normal component. -/
def Component.isNormal : Component → Bool
  | .normal _ => true
  | _ => false

/-- Models Path::is_absolute on unix: the path has a root. -/
def isAbsolute : UPath → Bool
  | .rootDir :: _ => true
  | _ => false

/-- Models Path::strip_prefix: componentwise prefix removal,
none when the first argument is not a componentwise prefix. -/
def stripPrefixPath : UPath → UPath → Option UPath
  | [], p => some p
  | _ :: _, [] => none
  | b :: bs, c :: cs => if b = c then stripPrefixPath bs cs else none

/-- Models PathBuf::push of a whole path: an absolute argument
replaces the base, a relative one is appended. -/
def pathPush (base child : UPath) : UPath :=
  if isAbsolute child then child else base ++ child

/-- Splits a character list at slashes (helper for parsing a unix
path string into components). -/
def splitSlash : List Char → List (List Char)
  | [] => [[]]
  | '/' :: rest => [] :: splitSlash rest
  | c :: rest =>
    match splitSlash rest with
    | p :: ps => (c :: p) :: ps
    | [] => [[c]]

/-- Turns the slash-separated pieces of a path into components:
empty pieces and interior dots are dropped, double dots become
ParentDir, everything else a Normal component — the normalization
Path::components performs on unix. -/
def partsToComponents : List (List Char) → List Component
  | [] => []
  | p :: rest =>
    if p = [] ∨ p = ['.'] then partsToComponents rest
    else if p = ['.', '.'] then Component.parentDir :: partsToComponents rest
    else Component.normal (String.mk p) :: partsToComponents rest

/-- Models Path::new on a unix path string: a leading slash yields
RootDir, a leading lone dot is kept as CurDir, the remaining pieces
are normalized componentwise. -/
def parsePath (s : List Char) : UPath :=
  match s with
  | '/' :: rest => Component.rootDir :: partsToComponents (splitSlash rest)
  | _ =>
    match splitSlash s with
    | p :: rest =>
      if p = ['.'] then Component.curDir :: partsToComponents rest
      else partsToComponents (p :: rest)
    | [] => []

/-- The fall-through tail of anonymize_unix_path, reached when the
path is not under the home directory: an absolute path loses its
root and keeps only its Normal components, a relative path is
returned unchanged. -/
def anonymizeOutsideHome (path : UPath) : UPath :=
  if isAbsolute path then (path.drop 1).filter Component.isNormal
  else path

/-- Models anonymize_unix_path: a path under the home directory maps
to user_home followed by the stripped remainder; otherwise the
outside-home shape applies. -/
def anonymize_unix_path (homeDir : Option UPath) (path : UPath) : UPath :=
  match homeDir with
  | some home_dir =>
    match stripPrefixPath home_dir path with
    | some relative_path => pathPush [Component.normal "user_home"] relative_path
    | none => anonymizeOutsideHome path
  | none => anonymizeOutsideHome path

/-- Models Path::file_name: the final component when it is Normal. -/
def fileName (p : UPath) : Option String :=
  match p.getLast? with
  | some (Component.normal n) => some n
  | _ => none

/-! ### Filesystem model -/

/-- Kind of a filesystem node. -/
inductive NodeType where
  | file
  | dir
deriving DecidableEq

/-- A filesystem snapshot: a list of (path, kind) entries.  Entries
are prepended on creation and the first match wins on lookup, so a
later copy overwrites an earlier entry observationally. -/
structure FS where
  entries : List (UPath × NodeType)
deriving DecidableEq

/-- Models Path::exists. -/
def FS.pathExists (fs : FS) (p : UPath) : Bool :=
  fs.entries.any (fun e => decide (e.1 = p))

/-- Models Path::is_file. -/
def FS.isFile (fs : FS) (p : UPath) : Bool :=
  match fs.entries.find? (fun e => decide (e.1 = p)) with
  | some e => decide (e.2 = NodeType.file)
  | none => false

/-- Models Path::is_dir. -/
def FS.isDir (fs : FS) (p : UPath) : Bool :=
  match fs.entries.find? (fun e => decide (e.1 = p)) with
  | some e => decide (e.2 = NodeType.dir)
  | none => false

/-- The nonempty prefixes of a path, shortest first. -/
def pathAncestors (p : UPath) : List UPath :=
  (List.range p.length).map (fun i => p.take (i + 1))

/-- Models fs::create_dir_all: records the directory and every
ancestor directory. -/
def FS.mkdirAll (fs : FS) (p : UPath) : FS :=
  ⟨(pathAncestors p).map (fun q => (q, NodeType.dir)) ++ fs.entries⟩

/-- Models fs::copy into a destination path: records a regular file
there (first match wins, so this overwrites). -/
def FS.copyFile (fs : FS) (dest : UPath) : FS :=
  ⟨(dest, NodeType.file) :: fs.entries⟩

/-! ### Orchestrator (struct GameBackup) -/

/-- The embedding context: the loaded configuration with its
resolved scope and backup root, the platform home directory, and
the two external collaborators of the source — the glob crate
(returning the match list of a pattern under a directory, or a
failure) and the recursive tree-copy primitive copy_all_files,
whose internals no claim depends on. -/
structure Ctx where
  games : List Game
  scope : Scope
  backup_root : UPath
  homeDir : Option UPath
  glob : UPath → String → Except CErr (List UPath)
  copyAll : FS → UPath → UPath → FS × Except CErr Unit

/-- Models list_games: the enabled games, in document order. -/
def list_games (ctx : Ctx) : List Game :=
  ctx.games.filter (fun g => g.enabled)

/-- Models has_backup: whether the game's directory under the backup
root exists (Path::exists — any node kind). -/
def has_backup (fs : FS) (backup_root : UPath) (game_name : String) : Bool :=
  fs.pathExists (backup_root ++ [Component.normal game_name])

/-- Models create_backup_path (unix branch): anonymize the source
path and push only its Normal components onto the game's backup
directory. -/
def create_backup_path (ctx : Ctx) (source_path game_backup_dir : UPath) : UPath :=
  let anonymized := anonymize_unix_path ctx.homeDir source_path
  game_backup_dir ++ anonymized.filter Component.isNormal

/-- The per-match loop of copy_files_by_pattern: regular files are
copied into the destination directory under their basename, other
match list entries are skipped; a match that is a regular file but has no
basename is the invalid-file-name error. -/
def copyMatches (fs : FS) (dest_dir : UPath) : List UPath → FS × Except CErr Unit
  | [] => (fs, .ok ())
  | p :: rest =>
    if fs.isFile p then
      match fileName p with
      | none => (fs, .error .invalidFileName)
      | some name => copyMatches (fs.copyFile (dest_dir ++ [Component.normal name])) dest_dir rest
    else copyMatches fs dest_dir rest

/-- Models copy_files_by_pattern: ask the glob collaborator for the
match list of the pattern under the source directory, then run the
per-match copy loop. -/
def copy_files_by_pattern (ctx : Ctx) (fs : FS) (source_dir dest_dir : UPath)
    (pattern : String) : FS × Except CErr Unit :=
  match ctx.glob source_dir pattern with
  | .error e => (fs, .error e)
  | .ok paths => copyMatches fs dest_dir paths

/-- The per-pattern loop of backup_save_location, aborting on the
first failing pattern. -/
def copyPatterns (ctx : Ctx) (fs : FS) (source_path backup_subdir : UPath) :
    List String → FS × Except CErr Unit
  | [] => (fs, .ok ())
  | pat :: rest =>
    match copy_files_by_pattern ctx fs source_path backup_subdir pat with
    | (fs', .ok _) => copyPatterns ctx fs' source_path backup_subdir rest
    | (fs', .error e) => (fs', .error e)

/-- Models backup_save_location: expand the configured path, require
it to exist on disk, create the anonymized backup subdirectory, and
dispatch to the recursive copier (empty files list) or the pattern
copier (otherwise). -/
def backup_save_location (ctx : Ctx) (fs : FS) (sl : SaveLocation)
    (game_backup_dir : UPath) : FS × Except CErr Unit :=
  match expand_variables ctx.scope sl.path with
  | .error e => (fs, .error e)
  | .ok sourceStr =>
    let source_path := parsePath sourceStr
    if fs.pathExists source_path = false then
      (fs, .error (.sourceMissing sourceStr))
    else
      let backup_subdir := create_backup_path ctx source_path game_backup_dir
      let fs1 := fs.mkdirAll backup_subdir
      if sl.files.isEmpty then ctx.copyAll fs1 source_path backup_subdir
      else copyPatterns ctx fs1 source_path backup_subdir sl.files

/-- The save-location loop of backup_game, aborting on the first
failing location. -/
def backupSaves (ctx : Ctx) (fs : FS) (game_backup_dir : UPath) :
    List SaveLocation → FS × Except CErr Unit
  | [] => (fs, .ok ())
  | sl :: rest =>
    match backup_save_location ctx fs sl game_backup_dir with
    | (fs', .ok _) => backupSaves ctx fs' game_backup_dir rest
    | (fs', .error e) => (fs', .error e)

/-- Models backup_game: find the game (error when unknown), return
success immediately when it is disabled, otherwise create the
game's backup directory and process its save locations in order. -/
def backup_game (ctx : Ctx) (fs : FS) (game_name : String) : FS × Except CErr Unit :=
  match ctx.games.find? (fun g => decide (g.name = game_name)) with
  | none => (fs, .error (.gameNotFound game_name))
  | some game =>
    if !game.enabled then (fs, .ok ())
    else
      let game_backup_dir := ctx.backup_root ++ [Component.normal game.name]
      let fs1 := fs.mkdirAll game_backup_dir
      backupSaves ctx fs1 game_backup_dir game.saves

/-- Models restore_save_location: expand the configured path to the
host destination, require the anonymized backup subdirectory to
exist, create the destination directory, then copy recursively from
the backup subdirectory to the destination. -/
def restore_save_location (ctx : Ctx) (fs : FS) (sl : SaveLocation)
    (game_backup_dir : UPath) : FS × Except CErr Unit :=
  match expand_variables ctx.scope sl.path with
  | .error e => (fs, .error e)
  | .ok destStr =>
    let dest_path := parsePath destStr
    let backup_subdir := create_backup_path ctx dest_path game_backup_dir
    if fs.pathExists backup_subdir = false then
      (fs, .error .backupDirMissing)
    else
      let fs1 := fs.mkdirAll dest_path
      ctx.copyAll fs1 backup_subdir dest_path

/-- The save-location loop of restore_game, aborting on the first
failing location. -/
def restoreSaves (ctx : Ctx) (fs : FS) (game_backup_dir : UPath) :
    List SaveLocation → FS × Except CErr Unit
  | [] => (fs, .ok ())
  | sl :: rest =>
    match restore_save_location ctx fs sl game_backup_dir with
    | (fs', .ok _) => restoreSaves ctx fs' game_backup_dir rest
    | (fs', .error e) => (fs', .error e)

/-- Models restore_game: find the game (error when unknown), return
success immediately when it is disabled, require the game's backup
directory to exist, then process its save locations in order. -/
def restore_game (ctx : Ctx) (fs : FS) (game_name : String) : FS × Except CErr Unit :=
  match ctx.games.find? (fun g => decide (g.name = game_name)) with
  | none => (fs, .error (.gameNotFound game_name))
  | some game =>
    if !game.enabled then (fs, .ok ())
    else
      let game_backup_dir := ctx.backup_root ++ [Component.normal game.name]
      if fs.pathExists game_backup_dir = false then
        (fs, .error (.noBackup game_name))
      else restoreSaves ctx fs game_backup_dir game.saves

/-- The shared per-game loop of backup_all_games and
restore_all_games: run the per-game operation on every game of the
list in order, threading the filesystem through regardless of
failures, and count successes and failures (the success_count and
error_count variables of the source). -/
def runGames (op : FS → String → FS × Except CErr Unit) (fs : FS) :
    List Game → FS × Nat × Nat
  | [] => (fs, 0, 0)
  | g :: rest =>
    match op fs g.name with
    | (fs', .ok _) =>
      let r := runGames op fs' rest
      (r.1, r.2.1 + 1, r.2.2)
    | (fs', .error _) =>
      let r := runGames op fs' rest
      (r.1, r.2.1, r.2.2 + 1)

/-- Models backup_all_games: filter the enabled games, return
success at once when there are none, otherwise attempt every one,
and fail with the aggregate error exactly when some game failed.
The two counters of the source are part of the result. -/
def backup_all_games (ctx : Ctx) (fs : FS) : FS × Nat × Nat × Except CErr Unit :=
  let enabled := ctx.games.filter (fun g => g.enabled)
  if enabled.isEmpty then (fs, 0, 0, .ok ())
  else
    let r := runGames (backup_game ctx) fs enabled
    (r.1, r.2.1, r.2.2, if 0 < r.2.2 then .error .aggregateFailure else .ok ())

/-- Models restore_all_games, structured exactly as
backup_all_games but over restore_game. -/
def restore_all_games (ctx : Ctx) (fs : FS) : FS × Nat × Nat × Except CErr Unit :=
  let enabled := ctx.games.filter (fun g => g.enabled)
  if enabled.isEmpty then (fs, 0, 0, .ok ())
  else
    let r := runGames (restore_game ctx) fs enabled
    (r.1, r.2.1, r.2.2, if 0 < r.2.2 then .error .aggregateFailure else .ok ())

/-! ### Lemmas about one expansion pass -/

/-- A pass over a string without a dollar-brace opener reproduces
the string with the changed flag clear. -/
theorem scanPass_clean (scope : Scope) :
    ∀ s : List Char, hasDollarBrace s = false →
      scanPass scope ScanMode.normal s = .ok (s, false) := by
  intro s
  induction s with
  | nil => intro _; rfl
  | cons c rest ih =>
    intro h
    cases rest with
    | nil => simp [scanPass]
    | cons c2 rest2 =>
      by_cases hc : c = '$' ∧ c2 = '{'
      · obtain ⟨h1, h2⟩ := hc
        subst h1; subst h2
        simp [hasDollarBrace] at h
      · have hrest : hasDollarBrace (c2 :: rest2) = false := by
          revert h
          by_cases h1 : c = '$' <;> by_cases h2 : c2 = '{' <;>
            simp [h1, h2, hasDollarBrace] <;> tauto
        have ht := ih hrest
        rcases Decidable.not_and_iff_or_not.mp hc with h1 | h2
        · simp [scanPass, h1, ht]
        · by_cases h1 : c = '$'
          · subst h1
            simp [scanPass, h2, ht]
          · simp [scanPass, h1, ht]

/-- In name-accumulation mode a successful pass always reports a
change (the name is either substituted or undefined). -/
theorem scanPass_inName_changed (scope : Scope) :
    ∀ (s acc t : List Char) (ch : Bool),
      scanPass scope (ScanMode.inName acc) s = .ok (t, ch) → ch = true := by
  intro s
  induction s with
  | nil =>
    intro acc t ch h
    rcases hl : lookupVar scope acc with _ | v <;> simp [scanPass, hl] at h
    exact h.2
  | cons c rest ih =>
    intro acc t ch h
    by_cases hc : c = '}'
    · subst hc
      rcases hl : lookupVar scope acc with _ | v
      · simp [scanPass, hl] at h
      · rcases hs : scanPass scope ScanMode.normal rest with e | ⟨t2, ch2⟩ <;>
          simp [scanPass, hl, hs] at h
        exact h.2
    · exact ih (acc ++ [c]) t ch (by simpa [scanPass, hc] using h)

/-- A successful pass over a string that does contain a dollar-brace
opener always reports a change. -/
theorem scanPass_changed (scope : Scope) :
    ∀ (s t : List Char) (ch : Bool), hasDollarBrace s = true →
      scanPass scope ScanMode.normal s = .ok (t, ch) → ch = true := by
  intro s
  induction s with
  | nil => intro t ch hb; simp [hasDollarBrace] at hb
  | cons c rest ih =>
    intro t ch hb h
    cases rest with
    | nil => simp [hasDollarBrace] at hb
    | cons c2 rest2 =>
      by_cases hc : c = '$' ∧ c2 = '{'
      · obtain ⟨h1, h2⟩ := hc
        subst h1; subst h2
        exact scanPass_inName_changed scope rest2 [] t ch (by simpa [scanPass] using h)
      · have hrest : hasDollarBrace (c2 :: rest2) = true := by
          revert hb
          by_cases h1 : c = '$' <;> by_cases h2 : c2 = '{' <;>
            simp [h1, h2, hasDollarBrace] <;> tauto
        rcases hs : scanPass scope ScanMode.normal (c2 :: rest2) with e | ⟨t2, ch2⟩
        · rcases Decidable.not_and_iff_or_not.mp hc with h1 | h2
          · simp [scanPass, h1, hs] at h
          · by_cases h1 : c = '$'
            · subst h1; simp [scanPass, h2, hs] at h
            · simp [scanPass, h1, hs] at h
        · have hch : ch = ch2 := by
            rcases Decidable.not_and_iff_or_not.mp hc with h1 | h2
            · simp [scanPass, h1, hs] at h
              exact h.2.symm
            · by_cases h1 : c = '$'
              · subst h1
                simp [scanPass, h2, hs] at h
                exact h.2.symm
              · simp [scanPass, h1, hs] at h
                exact h.2.symm
          rw [hch]
          exact ih t2 ch2 hrest hs

/-- Iterating the pass is the identity on strings without an
opener. -/
theorem iterPass_clean (scope : Scope) (k : Nat) (s : List Char)
    (h : hasDollarBrace s = false) : iterPass scope k s = some s := by
  induction k with
  | zero => rfl
  | succ k ih => simp [iterPass, scanPass_clean scope s h, ih]

/-- The loop of expand_variables reaches the fixed point of the
passes whenever a fully substituted form appears within the
iteration budget, using at most as many iterations as passes. -/
theorem expandLoop_of_iterPass (scope : Scope) :
    ∀ (k : Nat) (s : List Char) (i : Nat) (t : List Char),
      iterPass scope k s = some t → hasDollarBrace t = false → i + k ≤ 9 →
      ∃ i2, i2 ≤ i + k ∧ expandLoop scope (10 - i) s i = .ok (t, i2) := by
  intro k
  induction k with
  | zero =>
    intro s i t hit hcl hik
    simp [iterPass] at hit
    subst hit
    refine ⟨i, le_refl _, ?_⟩
    cases hfuel : 10 - i with
    | zero => simp [expandLoop]
    | succ f => simp [expandLoop, hcl]
  | succ k ih =>
    intro s i t hit hcl hik
    rcases hs : scanPass scope ScanMode.normal s with e | ⟨r, ch⟩
    · simp [iterPass, hs] at hit
    · simp [iterPass, hs] at hit
      by_cases hb : hasDollarBrace s = true
      · have hch : ch = true := scanPass_changed scope s r ch hb hs
        subst hch
        have hi10 : i < 10 := by omega
        have hfuel : 10 - i = (10 - (i + 1)) + 1 := by omega
        rcases ih r (i + 1) t hit hcl (by omega) with ⟨i2, hle, heq⟩
        refine ⟨i2, by omega, ?_⟩
        rw [hfuel]
        simpa [expandLoop, hb, hs, MAX_ITERATIONS, hi10] using heq
      · have hb2 : hasDollarBrace s = false := by
          revert hb; cases hasDollarBrace s <;> simp
        have hid := scanPass_clean scope s hb2
        rw [hs] at hid
        simp at hid
        obtain ⟨hr, hch⟩ := hid
        have hstable := iterPass_clean scope k s hb2
        rw [hr] at hit
        rw [hit] at hstable
        have ht : t = s := by injection hstable
        subst ht
        refine ⟨i, by omega, ?_⟩
        cases hfuel : 10 - i with
        | zero => simp [expandLoop]
        | succ f => simp [expandLoop, hb2]

/-- The substring test of the loop condition agrees with the infix
relation on the two-character needle. -/
theorem hasDollarBrace_eq_true_iff :
    ∀ s : List Char, hasDollarBrace s = true ↔ ['$', '{'] <:+: s := by
  intro s
  induction s with
  | nil => simp [hasDollarBrace]
  | cons c rest ih =>
    cases rest with
    | nil =>
      simp [hasDollarBrace]
      intro h
      have := h.length_le
      simp at this
    | cons c2 rest2 =>
      constructor
      · intro h
        by_cases hc : c = '$' ∧ c2 = '{'
        · obtain ⟨h1, h2⟩ := hc
          subst h1; subst h2
          exact ⟨[], rest2, rfl⟩
        · have hrest : hasDollarBrace (c2 :: rest2) = true := by
            revert h
            by_cases h1 : c = '$' <;> by_cases h2 : c2 = '{' <;>
              simp [h1, h2, hasDollarBrace] <;> tauto
          exact (ih.mp hrest).trans (List.suffix_cons c (c2 :: rest2)).isInfix
      · intro h
        rcases h with ⟨pre, post, heq⟩
        cases pre with
        | nil =>
          simp at heq
          obtain ⟨h1, h2, _⟩ := heq
          subst h1; subst h2
          simp [hasDollarBrace]
        | cons p ps =>
          have hrest : ['$', '{'] <:+: c2 :: rest2 := by
            refine ⟨ps, post, ?_⟩
            simpa using congrArg List.tail heq
          have := ih.mpr hrest
          revert this
          by_cases h1 : c = '$' <;> by_cases h2 : c2 = '{' <;>
            simp [h1, h2, hasDollarBrace]

/-! ### Claims C1, C2, C8 -/

/-- A chain of nine variables, each referring to the previous one;
resolving a reference to its head takes exactly nine passes. -/
def scopeChain9 : Scope :=
  [("a1".data, "x".data), ("a2".data, "${a1}".data), ("a3".data, "${a2}".data),
   ("a4".data, "${a3}".data), ("a5".data, "${a4}".data), ("a6".data, "${a5}".data),
   ("a7".data, "${a6}".data), ("a8".data, "${a7}".data), ("a9".data, "${a8}".data)]

/-- A chain of ten variables; resolving a reference to its head
takes exactly ten passes. -/
def scopeChain10 : Scope :=
  scopeChain9 ++ [("a10".data, "${a9}".data)]

/-- Claim C1, counterexample: the input that becomes fully
substituted exactly on the tenth scanning pass (a reference chain of
depth ten) does not succeed — expand_variables reports the
circular-reference error, because the post-loop check fires at
iterations = MAX_ITERATIONS even though the tenth pass completed the
substitution. -/
theorem c1_counterexample :
    iterPass scopeChain10 10 "${a10}".data = some "x".data ∧
    hasDollarBrace "x".data = false ∧
    expand_variables scopeChain10 "${a10}".data =
      .error CErr.circularVariableReference ∧
    expand_variables scopeChain10 "${a10}".data ≠ .ok "x".data := by
  refine ⟨by decide, by decide, by decide, by decide⟩

/-- Claim C1 (amended): an input whose expansion reaches a fully
substituted result within at most nine scanning passes succeeds and
returns that result; a reference chain of depth nine is permitted,
while one of depth ten already fails with CircularVariableReference
(the loop errors whenever it runs its tenth pass, even a completing
one). -/
theorem c1_expansion_bound (scope : Scope) (value : List Char) (k : Nat)
    (t : List Char) (hk : k ≤ 9) (hit : iterPass scope k value = some t)
    (hcl : hasDollarBrace t = false) :
    expand_variables scope value = .ok t := by
  rcases expandLoop_of_iterPass scope k value 0 t hit hcl (by omega) with ⟨i2, hle, heq⟩
  have h10 : (10 : Nat) - 0 = MAX_ITERATIONS := rfl
  rw [h10] at heq
  have hlt : ¬ (MAX_ITERATIONS ≤ i2) := by
    simp [MAX_ITERATIONS]
    omega
  simp [expand_variables, heq, hlt]

/-- Witness for claim C1: the depth-nine chain resolves in nine
passes and expand_variables accepts it. -/
theorem c1_expansion_bound_witness :
    iterPass scopeChain9 9 "${a9}".data = some "x".data ∧
    hasDollarBrace "x".data = false ∧
    expand_variables scopeChain9 "${a9}".data = .ok "x".data :=
  ⟨by decide, by decide,
    c1_expansion_bound scopeChain9 "${a9}".data 9 "x".data (by decide)
      (by decide) (by decide)⟩

/-- Claim C2, counterexample: loading the two-variable configuration
a = b-reference, b = a-reference fails with the undefined-variable
error for b, not with CircularVariableReference as claimed. -/
theorem c2_counterexample :
    resolve_variables (some "/home/user".data) (some "/home/user/.config".data)
      [⟨"a".data, "${b}".data⟩, ⟨"b".data, "${a}".data⟩] =
      .error (CErr.undefinedVariable "b".data) ∧
    resolve_variables (some "/home/user".data) (some "/home/user/.config".data)
      [⟨"a".data, "${b}".data⟩, ⟨"b".data, "${a}".data⟩] ≠
      .error CErr.circularVariableReference := by
  refine ⟨by decide, by decide⟩

/-- Claim C2 (amended): for the two-variable configuration a =
b-reference, b = a-reference, loading fails with UndefinedVariable
for b on the very first pass of expanding a, whatever the system
home and config directories are: variables resolve strictly top to
bottom, so the forward reference to b is never in scope. -/
theorem c2_forward_reference (homeDir configDir : Option (List Char)) :
    resolve_variables homeDir configDir
      [⟨"a".data, "${b}".data⟩, ⟨"b".data, "${a}".data⟩] =
      .error (CErr.undefinedVariable "b".data) := by
  cases homeDir <;> cases configDir <;> rfl

/-- Claim C8: expand_variables returns any string containing no
dollar-brace occurrence unchanged, for every scope (so expansion is
idempotent on such strings). -/
theorem c8_no_reference_identity (scope : Scope) (s : List Char)
    (h : ¬ ['$', '{'] <:+: s) :
    expand_variables scope s = .ok s := by
  have hb : hasDollarBrace s = false := by
    rcases hd : hasDollarBrace s with _ | _
    · rfl
    · exact absurd ((hasDollarBrace_eq_true_iff s).mp hd) h
  simp [expand_variables, expandLoop, MAX_ITERATIONS, hb]

/-- Witness for claim C8: a concrete reference-free string passes
through expansion unchanged. -/
theorem c8_no_reference_identity_witness :
    ¬ (['$', '{'] <:+: "a plain $value".data) ∧
    expand_variables [("home".data, "/home/user".data)] "a plain $value".data =
      .ok "a plain $value".data :=
  ⟨by decide,
    c8_no_reference_identity [("home".data, "/home/user".data)]
      "a plain $value".data (by decide)⟩

/-! ### Claims C3 and C4 -/

/-- Componentwise prefix removal succeeds on an appended suffix. -/
theorem stripPrefixPath_append (h : UPath) :
    ∀ r : UPath, stripPrefixPath h (h ++ r) = some r := by
  induction h with
  | nil => intro r; rfl
  | cons b bs ih => intro r; simp [stripPrefixPath, ih]

/-- Componentwise prefix removal only succeeds on a genuine
prefix. -/
theorem stripPrefixPath_eq_some :
    ∀ (h p r : UPath), stripPrefixPath h p = some r → p = h ++ r := by
  intro h
  induction h with
  | nil =>
    intro p r hp
    simp [stripPrefixPath] at hp
    simp [hp]
  | cons b bs ih =>
    intro p r hp
    cases p with
    | nil => simp [stripPrefixPath] at hp
    | cons c cs =>
      by_cases hbc : b = c
      · subst hbc
        simp [stripPrefixPath] at hp
        simp [ih cs r hp]
      · simp [stripPrefixPath, hbc] at hp

/-- Claim C3: on POSIX hosts the anonymizer maps a path under the
home directory to user_home followed by the relative remainder, any
other absolute path to its normal components with the root stripped,
and a relative path to itself.  The path is assumed well formed (no
root marker past its head) and the home directory absolute, as on a
real host. -/
theorem c3_anonymize_unix (h p : UPath)
    (hwf : Component.rootDir ∉ p.drop 1)
    (habs : isAbsolute h = true) :
    (∀ rest, p = h ++ rest →
      anonymize_unix_path (some h) p = Component.normal "user_home" :: rest) ∧
    ((¬ ∃ rest, p = h ++ rest) → isAbsolute p = true →
      anonymize_unix_path (some h) p = (p.drop 1).filter Component.isNormal) ∧
    ((¬ ∃ rest, p = h ++ rest) → isAbsolute p = false →
      anonymize_unix_path (some h) p = p) := by
  refine ⟨?_, ?_, ?_⟩
  · intro rest hrest
    subst hrest
    have hrel : isAbsolute rest = false := by
      cases rest with
      | nil => rfl
      | cons c cs =>
        cases c with
        | rootDir =>
          exfalso
          apply hwf
          cases h with
          | nil => simp [isAbsolute] at habs
          | cons b bs => simp
        | curDir => rfl
        | parentDir => rfl
        | normal n => rfl
    simp [anonymize_unix_path, stripPrefixPath_append, pathPush, hrel]
  · intro hnot hpabs
    rcases hsp : stripPrefixPath h p with _ | r
    · simp [anonymize_unix_path, hsp, anonymizeOutsideHome, hpabs]
    · exact absurd ⟨r, stripPrefixPath_eq_some h p r hsp⟩ hnot
  · intro hnot hprel
    rcases hsp : stripPrefixPath h p with _ | r
    · simp [anonymize_unix_path, hsp, anonymizeOutsideHome, hprel]
    · exact absurd ⟨r, stripPrefixPath_eq_some h p r hsp⟩ hnot

/-- Witness for claim C3: the home-relative branch on a concrete
path under a concrete home directory. -/
theorem c3_anonymize_unix_witness :
    Component.rootDir ∉
      ([Component.rootDir, Component.normal "home", Component.normal "user",
        Component.normal ".config"] : UPath).drop 1 ∧
    anonymize_unix_path
      (some [Component.rootDir, Component.normal "home", Component.normal "user"])
      [Component.rootDir, Component.normal "home", Component.normal "user",
        Component.normal ".config"] =
      [Component.normal "user_home", Component.normal ".config"] :=
  ⟨by decide,
    (c3_anonymize_unix
        [Component.rootDir, Component.normal "home", Component.normal "user"]
        [Component.rootDir, Component.normal "home", Component.normal "user",
          Component.normal ".config"]
        (by decide) (by decide)).1 [Component.normal ".config"] rfl⟩

/-- Existence of a path in the filesystem model is existence as a
file or as a directory. -/
theorem pathExists_eq_isFile_or_isDir (fs : FS) (p : UPath) :
    fs.pathExists p = (fs.isFile p || fs.isDir p) := by
  rcases fs with ⟨l⟩
  simp only [FS.pathExists, FS.isFile, FS.isDir]
  induction l with
  | nil => rfl
  | cons e rest ih =>
    rcases e with ⟨q, ty⟩
    by_cases he : q = p
    · subst he
      cases ty <;> simp [List.any_cons, List.find?]
    · simpa [List.any_cons, List.find?, he] using ih

/-- A filesystem holding a regular file where a game's backup
directory would live. -/
def fsFileAtBackup : FS :=
  ⟨[([Component.rootDir, Component.normal "backup", Component.normal "GameA"],
     NodeType.file)]⟩

/-- Claim C4, counterexample: has_backup answers true for a game
name whose backup path exists as a regular file, not as a directory,
because the source checks Path::exists rather than Path::is_dir. -/
theorem c4_counterexample :
    has_backup fsFileAtBackup [Component.rootDir, Component.normal "backup"]
      "GameA" = true ∧
    fsFileAtBackup.isDir
      ([Component.rootDir, Component.normal "backup"] ++
        [Component.normal "GameA"]) = false := by
  refine ⟨by decide, by decide⟩

/-- Claim C4 (amended): has_backup returns true exactly when the
game's directory path under the backup root exists at all — as a
regular file or as a directory — not only when it is a directory. -/
theorem c4_has_backup_exists (fs : FS) (backup_root : UPath) (game_name : String) :
    has_backup fs backup_root game_name =
      (fs.isFile (backup_root ++ [Component.normal game_name]) ||
        fs.isDir (backup_root ++ [Component.normal game_name])) :=
  pathExists_eq_isFile_or_isDir fs _

/-! ### Claim C5 -/

/-- The per-game loop counts one success or one failure per game. -/
theorem runGames_counts (op : FS → String → FS × Except CErr Unit) :
    ∀ (gs : List Game) (fs : FS),
      (runGames op fs gs).2.1 + (runGames op fs gs).2.2 = gs.length := by
  intro gs
  induction gs with
  | nil => intro fs; rfl
  | cons g rest ih =>
    intro fs
    rcases hop : op fs g.name with ⟨fs2, r⟩
    cases r with
    | ok u =>
      cases u
      simp only [runGames, hop, List.length_cons]
      have := ih fs2
      omega
    | error e =>
      simp only [runGames, hop, List.length_cons]
      have := ih fs2
      omega

/-- The per-game loop threads the filesystem through the operation
for every game of the list, in order, regardless of failures. -/
theorem runGames_state (op : FS → String → FS × Except CErr Unit) :
    ∀ (gs : List Game) (fs : FS),
      (runGames op fs gs).1 = gs.foldl (fun f g => (op f g.name).1) fs := by
  intro gs
  induction gs with
  | nil => intro fs; rfl
  | cons g rest ih =>
    intro fs
    rcases hop : op fs g.name with ⟨fs2, r⟩
    cases r with
    | ok u => cases u; simp only [runGames, hop, List.foldl_cons]; exact ih fs2
    | error e => simp only [runGames, hop, List.foldl_cons]; exact ih fs2

/-- Specification of backup_all_games: attempted-count bookkeeping,
the success condition, the aggregate error, and the fact that the
filesystem state reflects an attempt on every enabled game in
document order. -/
theorem backup_all_games_spec (ctx : Ctx) (fs : FS) :
    ((backup_all_games ctx fs).2.1 + (backup_all_games ctx fs).2.2.1 =
      (ctx.games.filter (fun g => g.enabled)).length) ∧
    ((backup_all_games ctx fs).2.2.2 = .ok () ↔
      (backup_all_games ctx fs).2.2.1 = 0) ∧
    ((backup_all_games ctx fs).2.2.1 ≠ 0 →
      (backup_all_games ctx fs).2.2.2 = .error CErr.aggregateFailure) ∧
    ((backup_all_games ctx fs).1 =
      (ctx.games.filter (fun g => g.enabled)).foldl
        (fun f g => (backup_game ctx f g.name).1) fs) := by
  by_cases hemp : (ctx.games.filter (fun g => g.enabled)).isEmpty
  · have : ctx.games.filter (fun g => g.enabled) = [] := by
      simpa [List.isEmpty_iff] using hemp
    simp [backup_all_games, hemp, this]
  · have hc := runGames_counts (backup_game ctx) (ctx.games.filter (fun g => g.enabled)) fs
    have hst := runGames_state (backup_game ctx) (ctx.games.filter (fun g => g.enabled)) fs
    refine ⟨?_, ?_, ?_, ?_⟩ <;>
      simp only [backup_all_games, hemp, if_false, Bool.false_eq_true] <;>
      [exact hc; skip; skip; exact hst]
    · constructor
      · intro h
        by_contra hne
        simp [hne] at h
      · intro h
        simp [h]
    · intro hne
      simp [Nat.pos_of_ne_zero hne]

/-- Specification of restore_all_games, identical in shape to that
of backup_all_games. -/
theorem restore_all_games_spec (ctx : Ctx) (fs : FS) :
    ((restore_all_games ctx fs).2.1 + (restore_all_games ctx fs).2.2.1 =
      (ctx.games.filter (fun g => g.enabled)).length) ∧
    ((restore_all_games ctx fs).2.2.2 = .ok () ↔
      (restore_all_games ctx fs).2.2.1 = 0) ∧
    ((restore_all_games ctx fs).2.2.1 ≠ 0 →
      (restore_all_games ctx fs).2.2.2 = .error CErr.aggregateFailure) ∧
    ((restore_all_games ctx fs).1 =
      (ctx.games.filter (fun g => g.enabled)).foldl
        (fun f g => (restore_game ctx f g.name).1) fs) := by
  by_cases hemp : (ctx.games.filter (fun g => g.enabled)).isEmpty
  · have : ctx.games.filter (fun g => g.enabled) = [] := by
      simpa [List.isEmpty_iff] using hemp
    simp [restore_all_games, hemp, this]
  · have hc := runGames_counts (restore_game ctx) (ctx.games.filter (fun g => g.enabled)) fs
    have hst := runGames_state (restore_game ctx) (ctx.games.filter (fun g => g.enabled)) fs
    refine ⟨?_, ?_, ?_, ?_⟩ <;>
      simp only [restore_all_games, hemp, if_false, Bool.false_eq_true] <;>
      [exact hc; skip; skip; exact hst]
    · constructor
      · intro h
        by_contra hne
        simp [hne] at h
      · intro h
        simp [h]
    · intro hne
      simp [Nat.pos_of_ne_zero hne]

/-- Claim C5: the bulk drivers apply the per-game operation to every
enabled game in document order even when earlier games fail (the
final filesystem is the fold of the per-game operation over all
enabled games), they succeed exactly when zero games failed and
otherwise return the aggregate failure, and the success count plus
the failure count equals the number of enabled games. -/
theorem c5_bulk_all_games (ctx : Ctx) (fs : FS) :
    (((backup_all_games ctx fs).2.1 + (backup_all_games ctx fs).2.2.1 =
        (ctx.games.filter (fun g => g.enabled)).length) ∧
      ((backup_all_games ctx fs).2.2.2 = .ok () ↔
        (backup_all_games ctx fs).2.2.1 = 0) ∧
      ((backup_all_games ctx fs).2.2.1 ≠ 0 →
        (backup_all_games ctx fs).2.2.2 = .error CErr.aggregateFailure) ∧
      ((backup_all_games ctx fs).1 =
        (ctx.games.filter (fun g => g.enabled)).foldl
          (fun f g => (backup_game ctx f g.name).1) fs)) ∧
    (((restore_all_games ctx fs).2.1 + (restore_all_games ctx fs).2.2.1 =
        (ctx.games.filter (fun g => g.enabled)).length) ∧
      ((restore_all_games ctx fs).2.2.2 = .ok () ↔
        (restore_all_games ctx fs).2.2.1 = 0) ∧
      ((restore_all_games ctx fs).2.2.1 ≠ 0 →
        (restore_all_games ctx fs).2.2.2 = .error CErr.aggregateFailure) ∧
      ((restore_all_games ctx fs).1 =
        (ctx.games.filter (fun g => g.enabled)).foldl
          (fun f g => (restore_game ctx f g.name).1) fs)) :=
  ⟨backup_all_games_spec ctx fs, restore_all_games_spec ctx fs⟩

/-! ### Claim C6 -/

/-- Copying a file into one path leaves the file test of every
other path unchanged. -/
theorem isFile_copyFile_ne (fs : FS) (q p : UPath) (h : p ≠ q) :
    (fs.copyFile q).isFile p = fs.isFile p := by
  simp [FS.copyFile, FS.isFile, List.find?, Ne.symm h]

/-- The per-match copy loop, when it succeeds, adds exactly one
regular-file entry per match that is a regular file, placed in the
destination directory under the match's basename (latest copy
first), and nothing else; match entries that are not regular files are
ignored.  Matches are assumed not to name destination top-level
paths themselves (as with a source directory distinct from the
destination). -/
theorem copyMatches_spec :
    ∀ (mlist : List UPath) (fs : FS) (dest : UPath),
      (∀ p ∈ mlist, ∀ n, p ≠ dest ++ [Component.normal n]) →
      (copyMatches fs dest mlist).2 = .ok () →
      (copyMatches fs dest mlist).1.entries =
        (mlist.filterMap (fun p =>
          if fs.isFile p then
            (fileName p).map (fun n => (dest ++ [Component.normal n], NodeType.file))
          else none)).reverse ++ fs.entries := by
  intro mlist
  induction mlist with
  | nil => intro fs dest _ _; simp [copyMatches]
  | cons p rest ih =>
    intro fs dest hdisj hok
    by_cases hf : fs.isFile p = true
    · rcases hn : fileName p with _ | n
      · simp [copyMatches, hf, hn] at hok
      · have hstep : copyMatches fs dest (p :: rest) =
            copyMatches (fs.copyFile (dest ++ [Component.normal n])) dest rest := by
          simp [copyMatches, hf, hn]
        rw [hstep] at hok ⊢
        have hdisj2 : ∀ q ∈ rest, ∀ n2, q ≠ dest ++ [Component.normal n2] := by
          intro q hq n2
          exact hdisj q (List.mem_cons_of_mem p hq) n2
        have hih := ih (fs.copyFile (dest ++ [Component.normal n])) dest hdisj2 hok
        rw [hih]
        have hcong :
            rest.filterMap (fun q =>
              if (fs.copyFile (dest ++ [Component.normal n])).isFile q then
                (fileName q).map
                  (fun n2 => (dest ++ [Component.normal n2], NodeType.file))
              else none) =
            rest.filterMap (fun q =>
              if fs.isFile q then
                (fileName q).map
                  (fun n2 => (dest ++ [Component.normal n2], NodeType.file))
              else none) := by
          apply List.filterMap_congr
          intro q hq
          rw [isFile_copyFile_ne fs _ q (hdisj2 q hq n)]
        rw [hcong]
        simp [FS.copyFile, hf, hn]
    · have hf2 : fs.isFile p = false := by
        revert hf; cases fs.isFile p <;> simp
      have hstep : copyMatches fs dest (p :: rest) = copyMatches fs dest rest := by
        simp [copyMatches, hf2]
      rw [hstep] at hok ⊢
      have hdisj2 : ∀ q ∈ rest, ∀ n2, q ≠ dest ++ [Component.normal n2] := by
        intro q hq n2
        exact hdisj q (List.mem_cons_of_mem p hq) n2
      rw [ih fs dest hdisj2 hok]
      simp [hf2]

/-- Claim C6: in pattern mode, with the glob collaborator returning
a given match list, a successful copy places exactly the regular
files among the match list into the destination directory's top level
under their basenames (newest entry first), ignoring directories
among the match list and preserving no subdirectory structure. -/
theorem c6_pattern_mode (ctx : Ctx) (fs : FS) (source_dir dest_dir : UPath)
    (pattern : String) (mlist : List UPath)
    (hglob : ctx.glob source_dir pattern = .ok mlist)
    (hdisj : ∀ p ∈ mlist, ∀ n, p ≠ dest_dir ++ [Component.normal n])
    (hok : (copy_files_by_pattern ctx fs source_dir dest_dir pattern).2 = .ok ()) :
    (copy_files_by_pattern ctx fs source_dir dest_dir pattern).1.entries =
      (mlist.filterMap (fun p =>
        if fs.isFile p then
          (fileName p).map (fun n => (dest_dir ++ [Component.normal n], NodeType.file))
        else none)).reverse ++ fs.entries := by
  have hred : copy_files_by_pattern ctx fs source_dir dest_dir pattern =
      copyMatches fs dest_dir mlist := by
    simp [copy_files_by_pattern, hglob]
  rw [hred] at hok ⊢
  exact copyMatches_spec mlist fs dest_dir hdisj hok

/-- A context whose glob collaborator returns one regular file and
one directory under the data directory (witness input for the
pattern-mode claim). -/
def ctxPattern : Ctx :=
  { games := []
    scope := []
    backup_root := [Component.rootDir, Component.normal "backup"]
    homeDir := none
    glob := fun _ _ => .ok
      [[Component.rootDir, Component.normal "data", Component.normal "a.sav"],
       [Component.rootDir, Component.normal "data", Component.normal "sub"]]
    copyAll := fun f _ _ => (f, .ok ()) }

/-- The filesystem for the pattern-mode witness: a data directory
holding one regular file and one subdirectory. -/
def fsPattern : FS :=
  ⟨[([Component.rootDir, Component.normal "data"], NodeType.dir),
    ([Component.rootDir, Component.normal "data", Component.normal "a.sav"],
      NodeType.file),
    ([Component.rootDir, Component.normal "data", Component.normal "sub"],
      NodeType.dir)]⟩

/-- Witness for claim C6: only the regular file among the two
match list is copied, flattened to its basename at the destination top
level; the directory match is ignored. -/
theorem c6_pattern_mode_witness :
    (copy_files_by_pattern ctxPattern fsPattern
      [Component.rootDir, Component.normal "data"]
      [Component.rootDir, Component.normal "backup", Component.normal "GameA"]
      "*").2 = .ok () ∧
    (copy_files_by_pattern ctxPattern fsPattern
      [Component.rootDir, Component.normal "data"]
      [Component.rootDir, Component.normal "backup", Component.normal "GameA"]
      "*").1.entries =
      ([[Component.rootDir, Component.normal "data", Component.normal "a.sav"],
        [Component.rootDir, Component.normal "data", Component.normal "sub"]].filterMap
        (fun p =>
          if fsPattern.isFile p then
            (fileName p).map (fun n =>
              ([Component.rootDir, Component.normal "backup", Component.normal "GameA"]
                ++ [Component.normal n], NodeType.file))
          else none)).reverse ++ fsPattern.entries :=
  ⟨by decide,
    c6_pattern_mode ctxPattern fsPattern
      [Component.rootDir, Component.normal "data"]
      [Component.rootDir, Component.normal "backup", Component.normal "GameA"]
      "*"
      [[Component.rootDir, Component.normal "data", Component.normal "a.sav"],
       [Component.rootDir, Component.normal "data", Component.normal "sub"]]
      rfl
      (by
        intro p hp n hcon
        have hlen := congrArg List.length hcon
        fin_cases hp <;> simp at hlen)
      (by decide)⟩

/-! ### Claims C7 and C9 -/

/-- Claim C7: a game entry found disabled in the configuration is
inert — backup_game succeeds without touching the filesystem,
restore_game succeeds even with no backup directory present, and the
entry is absent from the game listing; a disabled game is never an
error. -/
theorem c7_disabled_inert (ctx : Ctx) (fs : FS) (n : String) (g : Game)
    (hfind : ctx.games.find? (fun g2 => decide (g2.name = n)) = some g)
    (hdis : g.enabled = false) :
    backup_game ctx fs n = (fs, .ok ()) ∧
    restore_game ctx fs n = (fs, .ok ()) ∧
    g ∉ list_games ctx := by
  refine ⟨?_, ?_, ?_⟩
  · simp [backup_game, hfind, hdis]
  · simp [restore_game, hfind, hdis]
  · intro hmem
    have := (List.mem_filter.mp hmem).2
    rw [hdis] at this
    exact Bool.false_ne_true this

/-- A context holding one disabled game (witness input for the
disabled-game claim). -/
def ctxDisabled : Ctx :=
  { games := [⟨"GameC", false, [⟨"/data/gamec".data, []⟩]⟩]
    scope := []
    backup_root := [Component.rootDir, Component.normal "backup"]
    homeDir := none
    glob := fun _ _ => .ok []
    copyAll := fun f _ _ => (f, .ok ()) }

/-- Witness for claim C7 on the concrete disabled game. -/
theorem c7_disabled_inert_witness :
    ctxDisabled.games.find? (fun g2 => decide (g2.name = "GameC")) =
      some ⟨"GameC", false, [⟨"/data/gamec".data, []⟩]⟩ ∧
    (backup_game ctxDisabled ⟨[]⟩ "GameC" = (⟨[]⟩, .ok ()) ∧
      restore_game ctxDisabled ⟨[]⟩ "GameC" = (⟨[]⟩, .ok ()) ∧
      (⟨"GameC", false, [⟨"/data/gamec".data, []⟩]⟩ : Game) ∉ list_games ctxDisabled) :=
  ⟨rfl,
    c7_disabled_inert ctxDisabled ⟨[]⟩ "GameC"
      ⟨"GameC", false, [⟨"/data/gamec".data, []⟩]⟩ rfl rfl⟩

/-- A nonempty path is one of its own ancestors. -/
theorem self_mem_pathAncestors (p : UPath) (h : p ≠ []) : p ∈ pathAncestors p := by
  have hlen : 0 < p.length := List.length_pos.mpr h
  refine List.mem_map.mpr ⟨p.length - 1, List.mem_range.mpr (by omega), ?_⟩
  have h2 : p.length - 1 + 1 = p.length := by omega
  rw [h2, List.take_length]

/-- Creating a directory tree records the directory itself. -/
theorem mkdirAll_pathExists_self (fs : FS) (p : UPath) (h : p ≠ []) :
    (fs.mkdirAll p).pathExists p = true := by
  simp only [FS.mkdirAll, FS.pathExists]
  rw [List.any_eq_true]
  exact ⟨(p, NodeType.dir),
    List.mem_append_left _ (List.mem_map.mpr ⟨p, self_mem_pathAncestors p h, rfl⟩),
    by simp⟩

/-- Claim C9: for an enabled game whose first save location expands
to a path absent from the filesystem, backup_game creates the game's
backup directory first and only then fails with the missing-source
error, leaving the directory behind — has_backup answers true
afterwards, so the operation is not atomic on error. -/
theorem c9_backup_not_atomic (ctx : Ctx) (fs : FS) (n : String) (g : Game)
    (sl : SaveLocation) (rest : List SaveLocation) (src : List Char)
    (hfind : ctx.games.find? (fun g2 => decide (g2.name = n)) = some g)
    (hen : g.enabled = true)
    (hsaves : g.saves = sl :: rest)
    (hexp : expand_variables ctx.scope sl.path = .ok src)
    (hmiss : (fs.mkdirAll (ctx.backup_root ++ [Component.normal g.name])).pathExists
        (parsePath src) = false) :
    backup_game ctx fs n =
      (fs.mkdirAll (ctx.backup_root ++ [Component.normal g.name]),
        .error (CErr.sourceMissing src)) ∧
    has_backup (fs.mkdirAll (ctx.backup_root ++ [Component.normal g.name]))
      ctx.backup_root g.name = true := by
  constructor
  · simp [backup_game, hfind, hen, hsaves, backupSaves, backup_save_location, hexp, hmiss]
  · exact mkdirAll_pathExists_self fs _ (by simp)

/-- A context holding one enabled game whose save path does not
exist in the empty filesystem (witness input for the non-atomicity
claim). -/
def ctxMissingSource : Ctx :=
  { games := [⟨"GameA", true, [⟨"/data/save".data, []⟩]⟩]
    scope := []
    backup_root := [Component.rootDir, Component.normal "backup"]
    homeDir := none
    glob := fun _ _ => .ok []
    copyAll := fun f _ _ => (f, .ok ()) }

/-- Witness for claim C9: on the empty filesystem the backup of the
concrete game fails with the missing-source error, yet its backup
directory exists afterwards. -/
theorem c9_backup_not_atomic_witness :
    expand_variables ctxMissingSource.scope "/data/save".data = .ok "/data/save".data ∧
    ((⟨[]⟩ : FS).mkdirAll
        (ctxMissingSource.backup_root ++ [Component.normal "GameA"])).pathExists
      (parsePath "/data/save".data) = false ∧
    (backup_game ctxMissingSource ⟨[]⟩ "GameA" =
      ((⟨[]⟩ : FS).mkdirAll
        (ctxMissingSource.backup_root ++ [Component.normal "GameA"]),
        .error (CErr.sourceMissing "/data/save".data)) ∧
      has_backup
        ((⟨[]⟩ : FS).mkdirAll
          (ctxMissingSource.backup_root ++ [Component.normal "GameA"]))
        ctxMissingSource.backup_root "GameA" = true) :=
  ⟨by decide, by decide,
    c9_backup_not_atomic ctxMissingSource ⟨[]⟩ "GameA"
      ⟨"GameA", true, [⟨"/data/save".data, []⟩]⟩
      ⟨"/data/save".data, []⟩ [] "/data/save".data
      rfl rfl rfl (by decide) (by decide)⟩

/-! ### Claim C10 -/

/-- Expansion leaves a string without a dollar-brace opener
untouched (helper shared with the idempotence claim). -/
theorem expand_variables_clean (scope : Scope) (s : List Char)
    (h : hasDollarBrace s = false) : expand_variables scope s = .ok s := by
  simp [expand_variables, expandLoop, MAX_ITERATIONS, h]

/-- Scanning a brace-terminated name looks the accumulated name up
in the scope. -/
theorem scanPass_name (scope : Scope) :
    ∀ (name acc : List Char), '}' ∉ name →
      scanPass scope (ScanMode.inName acc) (name ++ ['}']) =
        match lookupVar scope (acc ++ name) with
        | some v => .ok (v, true)
        | none => .error (.undefinedVariable (acc ++ name)) := by
  intro name
  induction name with
  | nil =>
    intro acc _
    rcases hl : lookupVar scope acc with _ | v <;> simp [scanPass, hl]
  | cons c cs ih =>
    intro acc hni
    have hc : c ≠ '}' := fun hc => hni (hc ▸ List.mem_cons_self c cs)
    have hcs : '}' ∉ cs := fun hm => hni (List.mem_cons_of_mem c hm)
    have hstep : scanPass scope (ScanMode.inName acc) ((c :: cs) ++ ['}']) =
        scanPass scope (ScanMode.inName (acc ++ [c])) (cs ++ ['}']) := by
      simp [scanPass, hc]
    rw [hstep, ih (acc ++ [c]) hcs]
    simp
  
/-- Expanding a string that is exactly one variable reference whose
value is reference-free yields that value. -/
theorem expand_single_ref (scope : Scope) (name v : List Char)
    (hni : '}' ∉ name)
    (hlv : lookupVar scope name = some v)
    (hcv : hasDollarBrace v = false) :
    expand_variables scope ('$' :: '{' :: (name ++ ['}'])) = .ok v := by
  have hscan : scanPass scope ScanMode.normal ('$' :: '{' :: (name ++ ['}'])) =
      .ok (v, true) := by
    have h1 : scanPass scope ScanMode.normal ('$' :: '{' :: (name ++ ['}'])) =
        scanPass scope (ScanMode.inName []) (name ++ ['}']) := by
      simp [scanPass]
    rw [h1, scanPass_name scope name [] hni]
    simp [hlv]
  have e1 : expandLoop scope 10 ('$' :: '{' :: (name ++ ['}'])) 0 =
      expandLoop scope 9 v 1 := by
    show expandLoop scope (9 + 1) ('$' :: '{' :: (name ++ ['}'])) 0 = _
    simp [expandLoop, hscan, hasDollarBrace, MAX_ITERATIONS]
  have e2 : expandLoop scope 9 v 1 = .ok (v, 1) := by
    show expandLoop scope (8 + 1) v 1 = _
    simp [expandLoop, hcv]
  simp [expand_variables, MAX_ITERATIONS, e1, e2]

/-- Claim C10: user variable names need not be unique.  For a
document defining a non-reserved name twice (with reference-free
values), with a reference to that name between the two definitions,
resolution succeeds; both definitions are expanded in document
order, the intermediate reference receives the first value, and the
second value shadows the first in the final scope. -/
theorem c10_duplicate_names (homeDir configDir : Option (List Char))
    (n m v1 v2 : List Char)
    (hn1 : n ≠ "home".data) (hn2 : n ≠ "config".data)
    (hm1 : m ≠ "home".data) (hm2 : m ≠ "config".data)
    (hmn : m ≠ n)
    (hni : '}' ∉ n)
    (hv1 : hasDollarBrace v1 = false)
    (hv2 : hasDollarBrace v2 = false) :
    resolve_variables homeDir configDir
      [⟨n, v1⟩, ⟨m, '$' :: '{' :: (n ++ ['}'])⟩, ⟨n, v2⟩] =
      .ok (insertVar n v2 (insertVar m v1 (insertVar n v1
        (add_system_variables homeDir configDir)))) ∧
    lookupVar (insertVar n v2 (insertVar m v1 (insertVar n v1
      (add_system_variables homeDir configDir)))) m = some v1 ∧
    lookupVar (insertVar n v2 (insertVar m v1 (insertVar n v1
      (add_system_variables homeDir configDir)))) n = some v2 := by
  refine ⟨?_, ?_, ?_⟩
  · have hfind :
        ([⟨n, v1⟩, ⟨m, '$' :: '{' :: (n ++ ['}'])⟩, ⟨n, v2⟩] :
            List Variable).find? (fun v =>
          decide (v.name = "home".data) || decide (v.name = "config".data)) =
          none := by
      simp [List.find?, hn1, hn2, hm1, hm2]
    have hlook1 :
        lookupVar (insertVar n v1 (add_system_variables homeDir configDir)) n =
          some v1 := by
      simp [insertVar, lookupVar]
    simp only [resolve_variables, hfind, resolveUserVars,
      expand_variables_clean _ v1 hv1,
      expand_single_ref _ n v1 hni hlook1 hv1,
      expand_variables_clean _ v2 hv2]
  · simp [insertVar, lookupVar, Ne.symm hmn]
  · simp [insertVar, lookupVar]

/-- Witness for claim C10 on concrete names and values. -/
theorem c10_duplicate_names_witness :
    resolve_variables (some "/home/user".data) none
      [⟨"dir".data, "/one".data⟩,
        ⟨"probe".data, '$' :: '{' :: ("dir".data ++ ['}'])⟩,
        ⟨"dir".data, "/two".data⟩] =
      .ok (insertVar "dir".data "/two".data
        (insertVar "probe".data "/one".data
          (insertVar "dir".data "/one".data
            (add_system_variables (some "/home/user".data) none)))) ∧
    lookupVar (insertVar "dir".data "/two".data
      (insertVar "probe".data "/one".data
        (insertVar "dir".data "/one".data
          (add_system_variables (some "/home/user".data) none)))) "probe".data =
      some "/one".data ∧
    lookupVar (insertVar "dir".data "/two".data
      (insertVar "probe".data "/one".data
        (insertVar "dir".data "/one".data
          (add_system_variables (some "/home/user".data) none)))) "dir".data =
      some "/two".data :=
  c10_duplicate_names (some "/home/user".data) none
    "dir".data "probe".data "/one".data "/two".data
    (by decide) (by decide) (by decide) (by decide) (by decide) (by decide)
    (by decide) (by decide)

end Cartridge
